import Mathlib

/-! # The `vecscale` table of `orb-rp2040-dvi`

A shallow embedding of `src/orb-rp2040-dvi/vecscale.h`, the single source file
of the repository: a constant table of `DIAMETER` 16-bit unsigned scale
values, one per pixel radius index.  The development states and proves the
order, range, shape and closed-form properties of that table.
-/

namespace Orb

/-- Modelled from the spec: the macro `DIAMETER` is used by `vecscale.h` as the
array bound but is defined outside it; the spec fixes the display diameter of
the published table at 240 pixels. -/
def DIAMETER : Nat := 240

/-- Conversion of a non-negative integer constant to `uint16_t`: reduction
modulo `2^16`. -/
def toUint16 (n : Nat) : Nat := n % 2 ^ 16

/-- The brace-enclosed initializer list of `vecscale`, literal by literal, in
source order (24 rows of 10 constants). -/
def vecscaleInit : List Nat := [
    137, 410, 683, 956, 1229, 1502, 1775, 2048, 2321, 2594,
    2867, 3140, 3413, 3686, 3959, 4233, 4506, 4779, 5052, 5325,
    5598, 5871, 6144, 6417, 6690, 6963, 7236, 7509, 7782, 8055,
    8329, 8602, 8875, 9148, 9421, 9694, 9967, 10240, 10513, 10786,
    11059, 11332, 11605, 11878, 12151, 12425, 12698, 12971, 13244, 13517,
    13790, 14063, 14336, 14609, 14882, 15155, 15428, 15701, 15974, 16247,
    16521, 16794, 17067, 17340, 17613, 17886, 18159, 18432, 18705, 18978,
    19251, 19524, 19797, 20070, 20343, 20617, 20890, 21163, 21436, 21709,
    21982, 22255, 22528, 22801, 23074, 23347, 23620, 23893, 24166, 24439,
    24713, 24986, 25259, 25532, 25805, 26078, 26351, 26624, 26897, 27170,
    27443, 27716, 27989, 28262, 28535, 28809, 29082, 29355, 29628, 29901,
    30174, 30447, 30720, 30993, 31266, 31539, 31812, 32085, 32358, 32631,
    32905, 33178, 33451, 33724, 33997, 34270, 34543, 34816, 35089, 35362,
    35635, 35908, 36181, 36454, 36727, 37001, 37274, 37547, 37820, 38093,
    38366, 38639, 38912, 39185, 39458, 39731, 40004, 40277, 40550, 40823,
    41097, 41370, 41643, 41916, 42189, 42462, 42735, 43008, 43281, 43554,
    43827, 44100, 44373, 44646, 44919, 45193, 45466, 45739, 46012, 46285,
    46558, 46831, 47104, 47377, 47650, 47923, 48196, 48469, 48742, 49015,
    49289, 49562, 49835, 50108, 50381, 50654, 50927, 51200, 51473, 51746,
    52019, 52292, 52565, 52838, 53111, 53385, 53658, 53931, 54204, 54477,
    54750, 55023, 55296, 55569, 55842, 56115, 56388, 56661, 56934, 57207,
    57481, 57754, 58027, 58300, 58573, 58846, 59119, 59392, 59665, 59938,
    60211, 60484, 60757, 61030, 61303, 61577, 61850, 62123, 62396, 62669,
    62942, 63215, 63488, 63761, 64034, 64307, 64580, 64853, 65126, 65399]

/-- The array `const uint16_t vecscale[DIAMETER] = { ... }`: element `i` holds
the `i`-th literal of the initializer converted to `uint16_t`; an element with
no initializer is zero-filled, as C aggregate initialization prescribes. -/
def vecscale (i : Fin DIAMETER) : Nat :=
  match vecscaleInit[i.val]? with
  | some v => toUint16 v
  | none => 0

/-- Index of the first element, `vecscale[0]`. -/
def firstIndex : Fin DIAMETER := ⟨0, by decide⟩

/-- Index of the last element, `vecscale[DIAMETER-1]`. -/
def lastIndex : Fin DIAMETER := ⟨DIAMETER - 1, by decide⟩

/-- Modelled from the spec: the encoder of §4.2 is not part of `vecscale.h`
(the table is published as data).  Step 3 of the encoder walks the rounded
sequence left to right and, whenever an entry is not above its (already
repaired) predecessor `prev`, bumps it to `prev + 1`. -/
def repairFrom (prev : Nat) : List Nat → List Nat
  | [] => []
  | x :: xs =>
    if x ≤ prev then (prev + 1) :: repairFrom (prev + 1) xs
    else x :: repairFrom x xs

/-- Modelled from the spec: the post-rounding monotonic repair of §4.2 step 3,
which is not part of `vecscale.h`; the first entry has no predecessor and is
kept, the others go through `repairFrom`. -/
def monotonicRepair : List Nat → List Nat
  | [] => []
  | x :: xs => x :: repairFrom x xs

/-- Modelled from the spec: the consumer-facing `lookup(table, radius_index)`
of §4.3 is not part of `vecscale.h`.  An index below the valid range reads the
first entry, an index above it reads the last entry, and an index inside the
range reads its own entry. -/
def lookup (table : Fin DIAMETER → Nat) (r : Int) : Nat :=
  if _hlo : r < 0 then table ⟨0, by decide⟩
  else if hhi : (DIAMETER : Int) ≤ r then table ⟨DIAMETER - 1, by decide⟩
  else table ⟨r.toNat, by omega⟩

/-! ## Auxiliary lemmas -/

theorem vecscaleInit_length : vecscaleInit.length = 240 := rfl

set_option maxRecDepth 100000 in
theorem vecscaleInit_eq_range :
    vecscaleInit = (List.range 240).map (fun i => 273 * i + 137 + i / 15) := by
  decide

theorem vecscaleInit_getElem? (i : Nat) (hi : i < 240) :
    vecscaleInit[i]? = some (273 * i + 137 + i / 15) := by
  rw [vecscaleInit_eq_range, List.getElem?_map, List.getElem?_range hi]
  rfl

theorem vecscale_eq (i : Fin DIAMETER) : vecscale i = 273 * i.val + 137 + i.val / 15 := by
  have hi : i.val < 240 := i.isLt
  unfold vecscale
  rw [vecscaleInit_getElem? _ hi]
  show toUint16 _ = _
  unfold toUint16
  omega

theorem vecscaleInit_getElem?_fin (i : Fin DIAMETER) :
    vecscaleInit[i.val]? = some (vecscale i) := by
  rw [vecscaleInit_getElem? _ i.isLt, vecscale_eq]

theorem ofFn_vecscale : List.ofFn vecscale = vecscaleInit := by
  apply List.ext_getElem?
  intro n
  by_cases hn : n < DIAMETER
  · rw [vecscaleInit_getElem?_fin ⟨n, hn⟩, List.getElem?_ofFn]
    unfold List.ofFnNthVal
    rw [dif_pos hn]
  · have h1 : (List.ofFn vecscale).length ≤ n := by rw [List.length_ofFn]; omega
    have h2 : vecscaleInit.length ≤ n := by
      rw [vecscaleInit_length]; unfold DIAMETER at hn; omega
    rw [List.getElem?_eq_none h1, List.getElem?_eq_none h2]

theorem repairFrom_eq_self_iff (xs : List Nat) :
    ∀ p : Nat, repairFrom p xs = xs ↔ List.Chain (· < ·) p xs := by
  induction xs with
  | nil => intro p; simp [repairFrom]
  | cons x xs ih =>
    intro p
    by_cases h : x ≤ p
    · simp only [repairFrom, h, if_true, List.chain_cons, List.cons.injEq]
      constructor
      · rintro ⟨h1, _⟩; omega
      · rintro ⟨h1, _⟩; omega
    · simp only [repairFrom, h, if_false, List.chain_cons, List.cons.injEq, true_and]
      rw [ih x]
      constructor
      · intro hc; exact ⟨by omega, hc⟩
      · intro hc; exact hc.2

/-- The repair step leaves a sequence untouched exactly when the sequence is
already strictly increasing. -/
theorem monotonicRepair_eq_self_iff (xs : List Nat) :
    monotonicRepair xs = xs ↔ List.Chain' (· < ·) xs := by
  cases xs with
  | nil => simp [monotonicRepair]
  | cons x xs =>
    simp only [monotonicRepair, List.cons.injEq, true_and, List.Chain']
    exact repairFrom_eq_self_iff xs x

theorem vecscale_step (i j : Fin DIAMETER) (h : j.val = i.val + 1) :
    vecscale j = vecscale i + (if j.val % 15 = 0 then 274 else 273) := by
  rw [vecscale_eq i, vecscale_eq j, h]
  split <;> omega

theorem chain_vecscale : List.Chain' (· < ·) (List.ofFn vecscale) := by
  rw [List.chain'_iff_get]
  intro k hk
  rw [List.length_ofFn] at hk
  simp only [List.get_eq_getElem, List.getElem_ofFn]
  rw [vecscale_eq, vecscale_eq]
  simp only
  omega

/-! ## Order and range of the table -/

/-- C1: the table is strictly increasing, `vecscale[i] < vecscale[i+1]` for
every `i` with `0 ≤ i ≤ 238` (here `j` is the index `i + 1`), and the
post-rounding monotonic repair changes no entry of the table. -/
theorem vecscale_strictly_increasing (i j : Fin DIAMETER) (h : j.val = i.val + 1) :
    vecscale i < vecscale j ∧
      monotonicRepair (List.ofFn vecscale) = List.ofFn vecscale := by
  refine ⟨?_, (monotonicRepair_eq_self_iff _).2 chain_vecscale⟩
  rw [vecscale_step i j h]
  split <;> omega

/-- Witness for C1 at the first adjacent pair: `vecscale[0] < vecscale[1]`. -/
theorem vecscale_strictly_increasing_witness :
    (1 : Nat) = 0 + 1 ∧ vecscale ⟨0, by decide⟩ < vecscale ⟨1, by decide⟩ :=
  ⟨rfl, (vecscale_strictly_increasing ⟨0, by decide⟩ ⟨1, by decide⟩ rfl).1⟩

/-- C2: boundary containment.  `vecscale[0] ≥ 1`, `vecscale[239] ≤ 65535`, and
every literal of the initializer lies in `[1, 65535]`, is unchanged by the
conversion to `uint16_t`, and is the value stored in its slot. -/
theorem vecscale_boundary_containment :
    1 ≤ vecscale firstIndex ∧ vecscale lastIndex ≤ 65535 ∧
      (∀ k : Fin vecscaleInit.length,
        1 ≤ vecscaleInit.get k ∧ vecscaleInit.get k ≤ 65535 ∧
          toUint16 (vecscaleInit.get k) = vecscaleInit.get k) ∧
      (∀ i : Fin DIAMETER,
        vecscaleInit[i.val]? = some (vecscale i) ∧ 1 ≤ vecscale i ∧ vecscale i ≤ 65535) := by
  have hall : ∀ i : Fin DIAMETER, 1 ≤ vecscale i ∧ vecscale i ≤ 65535 := by
    intro i
    have hi : i.val < 240 := i.isLt
    rw [vecscale_eq]
    omega
  refine ⟨(hall _).1, (hall _).2, ?_, fun i => ⟨vecscaleInit_getElem?_fin i, hall i⟩⟩
  intro k
  have hk : k.val < 240 := k.isLt
  have hget : vecscaleInit.get k = 273 * k.val + 137 + k.val / 15 := by
    have h := vecscaleInit_getElem? k.val hk
    rw [List.getElem?_eq_getElem k.isLt] at h
    exact Option.some.inj h
  rw [hget]
  unfold toUint16
  omega

/-- C3: the initializer lists exactly 240 values, as many as `DIAMETER`, so
every index `0..239` has a literal of its own (the zero-fill branch of the
array initialization is never taken) and no literal is in excess. -/
theorem vecscaleInit_covers_every_index :
    vecscaleInit.length = 240 ∧ vecscaleInit.length = DIAMETER ∧
      (∀ i : Fin DIAMETER, ∃ v, vecscaleInit[i.val]? = some v ∧ vecscale i = toUint16 v) ∧
      (∀ i : Fin DIAMETER, vecscaleInit[i.val]? ≠ none) ∧
      vecscaleInit[DIAMETER]? = none := by
  refine ⟨rfl, rfl, ?_, ?_, ?_⟩
  · intro i
    refine ⟨273 * i.val + 137 + i.val / 15, vecscaleInit_getElem? _ i.isLt, ?_⟩
    have hi : i.val < 240 := i.isLt
    rw [vecscale_eq]
    unfold toUint16
    omega
  · intro i
    rw [vecscaleInit_getElem? _ i.isLt]
    exact Option.some_ne_none _
  · exact List.getElem?_eq_none (Nat.le_of_eq vecscaleInit_length)

/-- C4: for `DIAMETER = 240` the first entry is 137 and is the smallest entry
of the table; the last entry, `vecscale[239]`, is 65399, is the largest entry
of the table and does not exceed 65535. -/
theorem vecscale_first_and_last :
    DIAMETER = 240 ∧ lastIndex.val = 239 ∧
      vecscale firstIndex = 137 ∧ (∀ i : Fin DIAMETER, vecscale firstIndex ≤ vecscale i) ∧
      vecscale lastIndex = 65399 ∧ (∀ i : Fin DIAMETER, vecscale i ≤ vecscale lastIndex) ∧
      vecscale lastIndex ≤ 65535 := by
  have hf : vecscale firstIndex = 137 := by rw [vecscale_eq]; rfl
  have hl : vecscale lastIndex = 65399 := by rw [vecscale_eq]; rfl
  refine ⟨rfl, rfl, hf, ?_, hl, ?_, ?_⟩
  · intro i
    rw [hf, vecscale_eq]
    omega
  · intro i
    have hi : i.val < 240 := i.isLt
    rw [hl, vecscale_eq]
    omega
  · rw [hl]
    decide

/-! ## Shape of the table: successive differences -/

set_option maxRecDepth 100000 in
/-- C5, counterexample: the table is not convex.  At `i = 14` the entries are
`3959, 4233, 4506`, so the step into index 15 is 274 and the next step is 273:
the successive difference shrinks. -/
theorem vecscale_difference_shrinks_at_14 :
    vecscale ⟨14, by decide⟩ = 3959 ∧ vecscale ⟨15, by decide⟩ = 4233 ∧
      vecscale ⟨16, by decide⟩ = 4506 ∧
      ¬ ((vecscale ⟨16, by decide⟩ : Int) - vecscale ⟨15, by decide⟩ ≥
          (vecscale ⟨15, by decide⟩ : Int) - vecscale ⟨14, by decide⟩) := by
  have h14 : vecscale ⟨14, by decide⟩ = 3959 := by decide
  have h15 : vecscale ⟨15, by decide⟩ = 4233 := by decide
  have h16 : vecscale ⟨16, by decide⟩ = 4506 := by decide
  refine ⟨h14, h15, h16, ?_⟩
  rw [h14, h15, h16]
  decide

set_option maxRecDepth 100000 in
/-- C5, amended: for consecutive indices `i`, `j = i + 1`, `k = i + 2` (so
`0 ≤ i ≤ 237`) both successive differences are 273 or 274; the difference does
not shrink unless `j` is divisible by 15, where it drops from 274 to 273; and
the differences are not all equal, since the step grows from 273 to 274
between indices 13, 14 and 15. -/
theorem vecscale_differences_near_constant (i j k : Fin DIAMETER)
    (hj : j.val = i.val + 1) (hk : k.val = j.val + 1) :
    ((vecscale j : Int) - vecscale i = 273 ∨ (vecscale j : Int) - vecscale i = 274) ∧
      ((vecscale k : Int) - vecscale j = 273 ∨ (vecscale k : Int) - vecscale j = 274) ∧
      (j.val % 15 ≠ 0 →
        (vecscale k : Int) - vecscale j ≥ (vecscale j : Int) - vecscale i) ∧
      (j.val % 15 = 0 →
        (vecscale j : Int) - vecscale i = 274 ∧ (vecscale k : Int) - vecscale j = 273) ∧
      (vecscale ⟨14, by decide⟩ : Int) - vecscale ⟨13, by decide⟩ <
        (vecscale ⟨15, by decide⟩ : Int) - vecscale ⟨14, by decide⟩ := by
  have h1 := vecscale_step i j hj
  have h2 := vecscale_step j k hk
  have h13 : vecscale ⟨13, by decide⟩ = 3686 := by decide
  have h14 : vecscale ⟨14, by decide⟩ = 3959 := by decide
  have h15 : vecscale ⟨15, by decide⟩ = 4233 := by decide
  rw [h13, h14, h15]
  split at h1 <;> split at h2 <;> refine ⟨?_, ?_, ?_, ?_, by decide⟩ <;> omega

/-- Witness for the amended C5 at `i = 0, j = 1, k = 2`: both steps are 273. -/
theorem vecscale_differences_near_constant_witness :
    (1 : Nat) = 0 + 1 ∧ (2 : Nat) = 1 + 1 ∧
      (vecscale ⟨2, by decide⟩ : Int) - vecscale ⟨1, by decide⟩ ≥
        (vecscale ⟨1, by decide⟩ : Int) - vecscale ⟨0, by decide⟩ :=
  ⟨rfl, rfl,
    (vecscale_differences_near_constant ⟨0, by decide⟩ ⟨1, by decide⟩ ⟨2, by decide⟩
      rfl rfl).2.2.1 (by decide)⟩

/-! ## Clamped lookup -/

set_option maxRecDepth 100000 in
/-- C6: clamping law of the lookup.  For every integer index `r` the lookup
returns the entry at `min (max r 0) (DIAMETER - 1)`, which is a valid index, so
every index yields a value; in particular index `-5` reads as index `0` and
index `DIAMETER + 100` reads as index `DIAMETER - 1`. -/
theorem lookup_clamping_law (r : Int) :
    (∃ j : Fin DIAMETER, (j.val : Int) = min (max r 0) ((DIAMETER : Int) - 1) ∧
        lookup vecscale r = vecscale j) ∧
      lookup vecscale (-5) = lookup vecscale 0 ∧
      lookup vecscale ((DIAMETER : Int) + 100) = lookup vecscale ((DIAMETER : Int) - 1) ∧
      lookup vecscale (-5) = vecscale firstIndex ∧
      lookup vecscale ((DIAMETER : Int) + 100) = vecscale lastIndex := by
  refine ⟨?_, rfl, rfl, rfl, rfl⟩
  have hD : DIAMETER = 240 := rfl
  unfold lookup
  split
  · exact ⟨⟨0, by decide⟩, by show ((0 : Nat) : Int) = _; omega, rfl⟩
  · split
    · exact ⟨⟨DIAMETER - 1, by decide⟩,
        by show ((DIAMETER - 1 : Nat) : Int) = _; omega, rfl⟩
    · exact ⟨⟨r.toNat, by omega⟩, by show ((r.toNat : Nat) : Int) = _; omega, rfl⟩

/-! ## Closed form and symmetry -/

/-- C7: closed form.  For every `i` in `0..239`, `vecscale[i]` equals
`273*i + 137 + ⌊i/15⌋`; it is within `7/15 < 1/2` of `(i + 1/2) * 65536 / 240`
and is the only integer that close, so it is the nearest integer and no tie
occurs; and the step into the next index `j = i + 1` is 274 when `j` is
divisible by 15 and 273 otherwise. -/
theorem vecscale_closed_form (i : Fin DIAMETER) :
    vecscale i = 273 * i.val + 137 + i.val / 15 ∧
      |15 * (vecscale i : Int) - 2048 * (2 * (i.val : Int) + 1)| ≤ 7 ∧
      |(vecscale i : ℚ) - ((i.val : ℚ) + 1 / 2) * 65536 / 240| < 1 / 2 ∧
      (∀ n : Int, |15 * n - 2048 * (2 * (i.val : Int) + 1)| ≤ 7 →
        n = (273 * i.val + 137 + i.val / 15 : Nat)) ∧
      (∀ n : Int, |(n : ℚ) - ((i.val : ℚ) + 1 / 2) * 65536 / 240| ≤ 1 / 2 →
        n = vecscale i) ∧
      (∀ j : Fin DIAMETER, j.val = i.val + 1 →
        vecscale j = vecscale i + (if j.val % 15 = 0 then 274 else 273)) := by
  have hv := vecscale_eq i
  have hint : ∀ n : Int, |15 * n - 2048 * (2 * (i.val : Int) + 1)| ≤ 7 ↔
      n = (273 * i.val + 137 + i.val / 15 : Nat) := by
    intro n
    rw [abs_le]
    push_cast
    omega
  have hrat : ∀ n : Int, |(n : ℚ) - ((i.val : ℚ) + 1 / 2) * 65536 / 240| ≤ 1 / 2 →
      |15 * n - 2048 * (2 * (i.val : Int) + 1)| ≤ 7 := by
    intro n hn
    rw [abs_le] at hn ⊢
    obtain ⟨h1, h2⟩ := hn
    have e1 : (-15 : ℚ) ≤ 2 * (15 * n - 2048 * (2 * (i.val : Int) + 1) : Int) := by
      push_cast; linarith
    have e2 : (2 * (15 * n - 2048 * (2 * (i.val : Int) + 1) : Int) : ℚ) ≤ 15 := by
      push_cast; linarith
    have e1' : (-15 : Int) ≤ 2 * (15 * n - 2048 * (2 * (i.val : Int) + 1)) := by
      exact_mod_cast e1
    have e2' : 2 * (15 * n - 2048 * (2 * (i.val : Int) + 1)) ≤ (15 : Int) := by
      exact_mod_cast e2
    constructor <;> omega
  have hme : |15 * (vecscale i : Int) - 2048 * (2 * (i.val : Int) + 1)| ≤ 7 :=
    (hint _).2 (by rw [hv])
  refine ⟨hv, hme, ?_, fun n hn => (hint n).1 hn, ?_, fun j hj => vecscale_step i j hj⟩
  · rw [abs_le] at hme
    obtain ⟨h1, h2⟩ := hme
    have e1 : (-7 : ℚ) ≤ (15 * (vecscale i : Int) - 2048 * (2 * (i.val : Int) + 1) : Int) := by
      exact_mod_cast h1
    have e2 : ((15 * (vecscale i : Int) - 2048 * (2 * (i.val : Int) + 1) : Int) : ℚ) ≤ 7 := by
      exact_mod_cast h2
    push_cast at e1 e2
    rw [abs_lt]
    constructor <;> linarith
  · intro n hn
    have h := (hint n).1 (hrat n hn)
    rw [h, hv]

/-- Witness for C7 at `i = 14`: 3959 is within 7 of the scaled line, and the
step into index 15 is 274. -/
theorem vecscale_closed_form_witness :
    (3959 : Int) = (273 * 14 + 137 + 14 / 15 : Nat) ∧
      vecscale ⟨15, by decide⟩ =
        vecscale ⟨14, by decide⟩ + (if 15 % 15 = 0 then 274 else 273) :=
  ⟨(vecscale_closed_form ⟨14, by decide⟩).2.2.2.1 3959 (by decide),
    (vecscale_closed_form ⟨14, by decide⟩).2.2.2.2.2 ⟨15, by decide⟩ rfl⟩

/-- C8: mirror symmetry about the centre of the 16-bit range.  For every `i`
in `0..239`, with `j` the index `239 - i`, `vecscale[i] + vecscale[j] = 65536`. -/
theorem vecscale_mirror_symmetry (i j : Fin DIAMETER) (h : j.val = 239 - i.val) :
    vecscale i + vecscale j = 65536 := by
  have hi : i.val < 240 := i.isLt
  rw [vecscale_eq i, vecscale_eq j, h]
  omega

/-- Witness for C8 at `i = 0`, `j = 239`: `137 + 65399 = 65536`. -/
theorem vecscale_mirror_symmetry_witness :
    (239 : Nat) = 239 - 0 ∧ vecscale ⟨0, by decide⟩ + vecscale ⟨239, by decide⟩ = 65536 :=
  ⟨rfl, vecscale_mirror_symmetry ⟨0, by decide⟩ ⟨239, by decide⟩ rfl⟩

end Orb
